import Mathlib

/-!
The jansson_examples programs: a reference-counted JSON record, built, queried, printed and
released.

The two programs of the repository (`example1_basic.c`, `example2_optimised.c`) are
clients of the jansson library.  The library itself is not part of the repository, so its
operations are modelled from the specification of the value model (tagged nodes, reference
counts, ordered object tables, cascading release, indented serialisation).  The functions of
the two programs are translated from their C text, statement by statement, as state-passing
functions over that model.

Pointers are `Option Nat`: `none` is `NULL`, `some a` is the address of a node in the heap.
C strings are `Option String` where the C code tests them against `NULL`.
-/

namespace Jansson

/-- Modelled from the spec: the per-variant payload of a node (section 3). `object` holds
the ordered table of `(key, child address)` entries, `string` an owned text; the remaining
variants are the extension points the spec names. The type `json_t` is declared by the
library header, which is not among the sources. -/
inductive Value where
  | object (table : List (String × Nat))
  | array (items : List Nat)
  | string (text : String)
  | number (v : Int)
  | bool (b : Bool)
  | null
  deriving DecidableEq

/-- Modelled from the spec: a node is a payload together with its reference count
(section 3). A count of 0 means the node has been destroyed. -/
structure Node where
  refcount : Nat
  value : Value
  deriving DecidableEq

/-- A violation of a precondition of the library (section 4.1): what C leaves undefined is
recorded instead of being executed. -/
inductive Fault where
  /-- A release of a node whose count is already 0. -/
  | released (a : Nat)
  /-- A destroyed node handed to a library operation. -/
  | used (a : Nat)
  /-- An address that no constructor ever returned. -/
  | wild (a : Nat)
  deriving DecidableEq

/-- The state the programs run in: the library heap (a node's address is its index), the
addresses whose storage was freed, in the order of freeing, the recorded faults, the outcomes
of the fallible library calls still to come (`true` succeeds; an exhausted list succeeds), and
what was written to the two output streams (`stderr` holds the `(function, line)` stamps of
`eprintf`). -/
structure World where
  heap : List Node
  freed : List Nat
  faults : List Fault
  outcomes : List Bool
  stdout : List String
  stderr : List (String × Nat)
  deriving DecidableEq

/-- The state at program start: nothing allocated, nothing printed. -/
def World.init (outcomes : List Bool) : World :=
  { heap := [], freed := [], faults := [], outcomes := outcomes, stdout := [], stderr := [] }

/-- Record a fault. -/
def World.fault (w : World) (f : Fault) : World :=
  { w with faults := w.faults ++ [f] }

/-- C `printf` of an already formatted text. -/
def World.printf (w : World) (text : String) : World :=
  { w with stdout := w.stdout ++ [text] }

/-- The outcome of the next fallible library call. -/
def World.draw (w : World) : Bool × World :=
  match w.outcomes with
  | [] => (true, w)
  | b :: rest => (b, { w with outcomes := rest })

/-- The addresses a payload owns a reference to. -/
def Value.children : Value → List Nat
  | .object table => table.map Prod.snd
  | .array items => items
  | _ => []

/-- The steps of a cascading release still to be carried out. -/
inductive Task where
  /-- Decrement the count of the node at `a`. -/
  | dec (a : Nat)
  /-- Free the storage of the node at `a`, all of whose children have been released. -/
  | free (a : Nat)
  deriving DecidableEq

/-- Modelled from the spec: `release` (section 4.1). The count is decremented; when it
reaches 0 the node is destroyed: `release` is invoked on every child, in table order and
depth first, before the storage of the node itself is freed. A release of a node whose
count is already 0 is a precondition violation and is recorded as a fault. The first
argument bounds the number of steps. -/
def release : Nat → List Task → World → World
  | 0, _, w => w
  | _ + 1, [], w => w
  | fuel + 1, .free a :: rest, w => release fuel rest { w with freed := w.freed ++ [a] }
  | fuel + 1, .dec a :: rest, w =>
    match w.heap[a]? with
    | none => release fuel rest (w.fault (.wild a))
    | some n =>
      if n.refcount = 0 then release fuel rest (w.fault (.released a))
      else if n.refcount = 1 then
        release fuel (n.value.children.map Task.dec ++ Task.free a :: rest)
          { w with heap := w.heap.set a { n with refcount := 0 } }
      else
        release fuel rest { w with heap := w.heap.set a { n with refcount := n.refcount - 1 } }

/-- A number of steps no cascade exceeds: a node is destroyed at most once, and its
destruction adds one step for each child and one for its own storage (`json_decref_fuel`
below: a larger bound gives the same state). -/
def World.budget (w : World) : Nat :=
  (w.heap.map (fun n => n.value.children.length + 1)).sum + 1

/-- Modelled from the spec: `json_decref`, the library's `release` (section 4.1). `NULL` is
ignored. -/
def json_decref (w : World) (json : Option Nat) : World :=
  match json with
  | none => w
  | some a => release w.budget [Task.dec a] w

/-- Modelled from the spec: `json_object`, the library's `create_object` (section 4.1): a
new Object node with an empty table and count 1, or `NULL` when allocation fails. -/
def json_object (w : World) : Option Nat × World :=
  match w.draw with
  | (false, w1) => (none, w1)
  | (true, w1) => (some w1.heap.length, { w1 with heap := w1.heap ++ [⟨1, .object []⟩] })

/-- Modelled from the spec: `json_string`, the library's `create_string` (section 4.1): a
new String node owning a copy of the text, count 1, or `NULL` when allocation fails or the
text pointer is `NULL`. -/
def json_string (w : World) (value : Option String) : Option Nat × World :=
  match value with
  | none => (none, w)
  | some text =>
    match w.draw with
    | (false, w1) => (none, w1)
    | (true, w1) => (some w1.heap.length, { w1 with heap := w1.heap ++ [⟨1, .string text⟩] })

/-- Modelled from the spec: `set` on an ordered table (section 4.2): an existing key keeps
its position and gets the new child, a new key is appended. -/
def tableSet : List (String × Nat) → String → Nat → List (String × Nat)
  | [], key, child => [(key, child)]
  | (k, c) :: rest, key, child =>
    if k = key then (k, child) :: rest else (k, c) :: tableSet rest key child

/-- Store a table in the Object node at `a`; writing into a destroyed node is a fault. -/
def World.store (w : World) (a : Nat) (table : List (String × Nat)) : World :=
  match w.heap[a]? with
  | none => w.fault (.wild a)
  | some n =>
    if n.refcount = 0 then w.fault (.used a)
    else { w with heap := w.heap.set a { n with value := .object table } }

/-- Modelled from the spec: `json_object_set_new`, the library's `set` (section 4.2). The
table takes over the caller's reference to `value`; the library consumes that reference
also when the call fails (it releases `value` and returns -1). With an existing key the old
child is released and the new one stored in its place; a new key is appended. The call
fails on a `NULL` key, on a `json` that is not a live Object, on `json == value`, and when
the table cannot grow. -/
def json_object_set_new (w : World) (json : Option Nat) (key : Option String)
    (value : Option Nat) : Int × World :=
  match value with
  | none => (-1, w)
  | some v =>
    match key, json with
    | none, _ => (-1, json_decref w (some v))
    | some _, none => (-1, json_decref w (some v))
    | some k, some j =>
      if j = v then (-1, json_decref w (some v))
      else
        match w.heap[j]? with
        | none => (-1, json_decref (w.fault (.wild j)) (some v))
        | some n =>
          if n.refcount = 0 then (-1, json_decref (w.fault (.used j)) (some v))
          else
            match n.value with
            | .object table =>
              match w.draw with
              | (false, w1) => (-1, json_decref w1 (some v))
              | (true, w1) =>
                match table.lookup k with
                | some old => (0, (json_decref w1 (some old)).store j (tableSet table k v))
                | none => (0, w1.store j (tableSet table k v))
            | _ => (-1, json_decref w (some v))

/-- Modelled from the spec: `json_object_get`, the library's `get` (section 4.2): a
borrowed reference to the child stored under `key`, or `NULL` when the key is absent, `key`
or `json` is `NULL`, or `json` is not an Object. No count changes. -/
def json_object_get (w : World) (json : Option Nat) (key : Option String) :
    Option Nat × World :=
  match key, json with
  | none, _ => (none, w)
  | some _, none => (none, w)
  | some k, some j =>
    match w.heap[j]? with
    | none => (none, w.fault (.wild j))
    | some n =>
      if n.refcount = 0 then (none, w.fault (.used j))
      else
        match n.value with
        | .object table => (table.lookup k, w)
        | _ => (none, w)

/-- Modelled from the spec: `json_string_value`: a borrowed view of the text of a String
node, `NULL` for `NULL` and for a node of any other variant. No count changes. -/
def json_string_value (w : World) (json : Option Nat) : Option String × World :=
  match json with
  | none => (none, w)
  | some j =>
    match w.heap[j]? with
    | none => (none, w.fault (.wild j))
    | some n =>
      if n.refcount = 0 then (none, w.fault (.used j))
      else
        match n.value with
        | .string text => (some text, w)
        | _ => (none, w)

/-- The library macro `JSON_INDENT(n)`: the indent width occupies the low five bits of the
flags of `json_dumps`. -/
def JSON_INDENT (n : Nat) : Nat := n % 32

/-- One hexadecimal digit, upper case. -/
def hexDigit (n : Nat) : Char :=
  if n < 10 then Char.ofNat (48 + n) else Char.ofNat (55 + n)

/-- Modelled from the spec: the escaping of one character inside a quoted text
(section 4.3): quote, backslash and the control characters. -/
def escapeChar (c : Char) : List Char :=
  if c = Char.ofNat 34 then [Char.ofNat 92, Char.ofNat 34]
  else if c = Char.ofNat 92 then [Char.ofNat 92, Char.ofNat 92]
  else if c = Char.ofNat 8 then [Char.ofNat 92, Char.ofNat 98]
  else if c = Char.ofNat 12 then [Char.ofNat 92, Char.ofNat 102]
  else if c = Char.ofNat 10 then [Char.ofNat 92, Char.ofNat 110]
  else if c = Char.ofNat 13 then [Char.ofNat 92, Char.ofNat 114]
  else if c = Char.ofNat 9 then [Char.ofNat 92, Char.ofNat 116]
  else if c.toNat < 32 then
    [Char.ofNat 92, Char.ofNat 117, Char.ofNat 48, Char.ofNat 48,
      hexDigit (c.toNat / 16), hexDigit (c.toNat % 16)]
  else [c]

/-- Modelled from the spec: a text inside double quotes, escaped (section 4.3). -/
def quote (text : String) : String :=
  String.mk ([Char.ofNat 34] ++ (text.data.map escapeChar).flatten ++ [Char.ofNat 34])

/-- Modelled from the spec: the line break in front of an entry or a closing bracket
(section 4.3): with a positive indent width a new line indented by `indent * depth`
spaces; with width 0 the single-line form, a blank after a comma and nothing elsewhere. -/
def lineBreak (indent depth : Nat) (afterComma : Bool) : String :=
  if 0 < indent then String.mk (Char.ofNat 10 :: List.replicate (indent * depth) (Char.ofNat 32))
  else if afterComma then " " else ""

/-- Join the rendered entries of a container with commas, each entry on its own line. -/
def joinEntries (indent depth : Nat) : List String → String
  | [] => ""
  | [e] => e
  | e :: rest => e ++ "," ++ lineBreak indent depth true ++ joinEntries indent depth rest

/-- Modelled from the spec: the recursive rendering of a node (section 4.3). An Object is
an opening brace, its entries in insertion order as quoted key, colon, blank and rendered
child, comma-separated, each on its own line at the indent of the next depth, and a closing
brace at the indent of the Object itself; an empty container has nothing between its
brackets. A destroyed or wild node, or a nesting deeper than the first argument allows
(which a circular structure always reaches), yields no text. -/
def render (heap : List Node) (indent : Nat) : Nat → Nat → Nat → Option String
  | 0, _, _ => none
  | fuel + 1, depth, a =>
    match heap[a]? with
    | none => none
    | some n =>
      if n.refcount = 0 then none
      else
        match n.value with
        | .string text => some (quote text)
        | .number v => some (toString v)
        | .bool b => some (if b then "true" else "false")
        | .null => some "null"
        | .object [] => some "\x7b\x7d"
        | .object table =>
          (table.mapM (fun e =>
            (render heap indent fuel (depth + 1) e.2).map (fun t => quote e.1 ++ ": " ++ t))).map
            (fun es => "\x7b" ++ lineBreak indent (depth + 1) false
              ++ joinEntries indent (depth + 1) es ++ lineBreak indent depth false ++ "\x7d")
        | .array [] => some "[]"
        | .array items =>
          (items.mapM (fun c => render heap indent fuel (depth + 1) c)).map
            (fun es => "[" ++ lineBreak indent (depth + 1) false
              ++ joinEntries indent (depth + 1) es ++ lineBreak indent depth false ++ "]")

/-- Modelled from the spec: `json_dumps`, the library's `serialize` (section 4.3): the
rendering of the tree below `json` as an owned text, with the indent width taken from the
flags. `NULL` when `json` is `NULL` or invalid, or when allocation fails. The tree is not
changed. -/
def json_dumps (w : World) (json : Option Nat) (flags : Nat) : Option String × World :=
  match json with
  | none => (none, w)
  | some j =>
    match w.heap[j]? with
    | none => (none, w.fault (.wild j))
    | some n =>
      if n.refcount = 0 then (none, w.fault (.used j))
      else
        match w.draw with
        | (false, w1) => (none, w1)
        | (true, w1) => (render w1.heap (flags % 32) (w1.heap.length) 0 j, w1)

/-- The macro `eprintf` of example 2: the function name and line go to the error stream,
the message itself to standard output. -/
def eprintf (w : World) (func : String) (line : Nat) (text : String) : World :=
  { w with stderr := w.stderr ++ [(func, line)], stdout := w.stdout ++ [text] }

end Jansson

namespace Example1

open Jansson

/-- The function `json_create_record` of `example1_basic.c` (lines 49-96). -/
def json_create_record (w : World) : Option Nat × World :=
  let my_name : Option String := some "John Doe"
  let my_city : Option String := some "New York"
  match json_object w with
  | (none, w1) => (none, w1)
  | (some root, w1) =>
    match json_string w1 my_name with
    | (none, w2) => (none, json_decref w2 (some root))
    | (some j_str, w2) =>
      let w3 :=
        match json_object_set_new w2 (some root) (some "Name") (some j_str) with
        | (rc, w) => if rc ≠ 0 then json_decref w (some root) else w
      match json_string w3 my_city with
      | (none, w4) => (none, w4)
      | (some j_city, w4) =>
        let w5 :=
          match json_object_set_new w4 (some root) (some "City") (some j_city) with
          | (rc, w) => if rc ≠ 0 then json_decref w (some root) else w
        (some root, w5)

/-- The function `json_print_record` of `example1_basic.c` (lines 100-130). A `NULL`
text given to `%s` is shown as `(null)`. -/
def json_print_record (w : World) (root : Option Nat) : Int × World :=
  match root with
  | none => (-1, w)
  | some _ =>
    match json_object_get w root (some "Name") with
    | (none, w1) => (-1, w1.printf "Can't find object for key 'Name'\n")
    | (some j_name, w1) =>
      match json_string_value w1 (some j_name) with
      | (str, w2) =>
        let w3 := w2.printf ("Key: Name | Value: " ++ str.getD "(null)" ++ "\n")
        match json_object_get w3 root (some "City") with
        | (none, w4) => (-1, w4.printf "Can't find object for key 'City'\n")
        | (some j_city, w4) =>
          match json_string_value w4 (some j_city) with
          | (str2, w5) => (0, w5.printf ("Key: City | Value: " ++ str2.getD "(null)" ++ "\n"))

/-- The function `json_print_json` of `example1_basic.c` (lines 134-156); it returns
nothing, so only the state is passed on. -/
def json_print_json (w : World) (root : Option Nat) : World :=
  match root with
  | none => w
  | some _ =>
    match json_dumps w root (JSON_INDENT 4) with
    | (none, w1) => w1.printf "Oops. Can't convert JSON object to text\n"
    | (some str_json, w1) =>
      (w1.printf "-------- JSON structure --------\n").printf (str_json ++ "\n")

/-- The function `json_remove_record` of `example1_basic.c` (lines 159-165). -/
def json_remove_record (w : World) (root : Option Nat) : Int × World :=
  (0, json_decref w root)

end Example1

namespace Example2

open Jansson

/-- The helper `json_root_add_string` of `example2_optimised.c` (lines 48-65). -/
def json_root_add_string (w : World) (root : Option Nat) (key val : Option String) :
    Int × World :=
  match root with
  | none => (-1, eprintf w "json_root_add_string" 51 "Error: root == NULL\n")
  | some _ =>
    match key with
    | none => (-1, eprintf w "json_root_add_string" 52 "Error: root == NULL\n")
    | some _ =>
      match val with
      | none => (-1, eprintf w "json_root_add_string" 53 "Error: root == NULL\n")
      | some _ =>
        match json_string w val with
        | (none, w1) =>
          (-1, eprintf w1 "json_root_add_string" 56 "Error: Can't create json string object\n")
        | (some j_str, w1) =>
          match json_object_set_new w1 root key (some j_str) with
          | (rc, w2) =>
            if rc ≠ 0 then
              (-1, json_decref
                (eprintf w2 "json_root_add_string" 59 "Error: Can't add json object\n")
                (some j_str))
            else (0, w2)

/-- The helper `json_find_str_for_key` of `example2_optimised.c` (lines 69-82). -/
def json_find_str_for_key (w : World) (root : Option Nat) (key : Option String) :
    Option String × World :=
  match root with
  | none => (none, eprintf w "json_find_str_for_key" 73 "Error: root == NULL\n")
  | some _ =>
    match key with
    | none => (none, eprintf w "json_find_str_for_key" 74 "Error: root == NULL\n")
    | some _ =>
      match json_object_get w root key with
      | (none, w1) =>
        (none, eprintf w1 "json_find_str_for_key" 78 "Error: Can't create json string object\n")
      | (some j_str, w1) => json_string_value w1 (some j_str)

/-- The function `json_create_record` of `example2_optimised.c` (lines 86-110). -/
def json_create_record (w : World) : Option Nat × World :=
  let my_name : Option String := some "John Doe"
  let my_city : Option String := some "New York"
  match json_object w with
  | (none, w1) => (none, eprintf w1 "json_create_record" 93 "Error: Can't create json root\n")
  | (some root, w1) =>
    match json_root_add_string w1 (some root) (some "Name") my_name with
    | (rc1, w2) =>
      if rc1 ≠ 0 then
        (none, json_decref
          (eprintf w2 "json_create_record" 97 "Error: Can't add string to record\n") (some root))
      else
        match json_root_add_string w2 (some root) (some "City") my_city with
        | (rc2, w3) =>
          if rc2 ≠ 0 then
            (none, json_decref
              (eprintf w3 "json_create_record" 103 "Error: Can't add string to record\n")
              (some root))
          else (some root, w3)

/-- The function `json_print_record` of `example2_optimised.c` (lines 114-144). -/
def json_print_record (w : World) (root : Option Nat) : Int × World :=
  match root with
  | none => (-1, eprintf w "json_print_record" 120 "Error: root == NULL\n")
  | some _ =>
    match json_find_str_for_key w root (some "City") with
    | (none, w1) =>
      (-1, eprintf w1 "json_print_record" 125 "Error: can't find string in json record\n\n")
    | (some city, w1) =>
      match json_find_str_for_key w1 root (some "Name") with
      | (none, w2) =>
        (-1, eprintf w2 "json_print_record" 129 "Error: can't find string in json record\n\n")
      | (some name, w2) =>
        let w3 := w2.printf ("Key: Name | Value: " ++ name ++ "\n")
        let w4 := w3.printf ("Key: City | Value: " ++ city ++ "\n")
        match json_find_str_for_key w4 root (some "Other") with
        | (none, w5) =>
          (0, w5.printf "Correct: Asked not existing record 'Other', returned value is NULL\n")
        | (some other, w5) =>
          (0, eprintf w5 "json_print_record" 140
            ("Error: Asked not existing record, 'Other' got something: " ++ other ++ "\n"))

/-- The function `json_print_json` of `example2_optimised.c` (lines 148-173). -/
def json_print_json (w : World) (root : Option Nat) : Int × World :=
  match root with
  | none => (-1, eprintf w "json_print_json" 152 "Error: root == NULL\n")
  | some _ =>
    match json_dumps w root (JSON_INDENT 4) with
    | (none, w1) =>
      (-1, eprintf w1 "json_print_json" 160 "Error: Can't convert json record to string\n")
    | (some str_json, w1) =>
      (0, (w1.printf "-------- JSON structure --------\n").printf (str_json ++ "\n"))

/-- The function `json_remove_record` of `example2_optimised.c` (lines 176-183). -/
def json_remove_record (w : World) (root : Option Nat) : Int × World :=
  match root with
  | none => (-1, eprintf w "json_remove_record" 178 "Error: root == NULL\n")
  | some _ => (0, json_decref w root)

end Example2

/-! Definitions used to state and prove the properties of the two programs. -/

namespace Jansson

/-- The heap after a successful `json_create_record`: the root Object at address 0 with
the two entries in insertion order, and the two String children, every count 1. -/
def recordHeap : List Node :=
  [⟨1, .object [("Name", 1), ("City", 2)]⟩, ⟨1, .string "John Doe"⟩, ⟨1, .string "New York"⟩]

/-- The state after a successful `json_create_record` at program start. -/
def recordWorld (rest : List Bool) : World :=
  { heap := recordHeap, freed := [], faults := [], outcomes := rest, stdout := [], stderr := [] }

/-- The text of the record at indent width 4: four lines. -/
def recordText : String :=
  "\x7b\n    \"Name\": \"John Doe\",\n    \"City\": \"New York\"\n\x7d"

/-- The child a lookup yields, as a function of the heap alone. -/
def lookupChild (heap : List Node) (json : Option Nat) (key : Option String) : Option Nat :=
  match key, json with
  | some k, some j =>
    match heap[j]? with
    | some n =>
      if n.refcount = 0 then none
      else
        match n.value with
        | .object table => table.lookup k
        | _ => none
    | none => none
  | _, _ => none

/-- The text a node yields, as a function of the heap alone. -/
def textOf (heap : List Node) (json : Option Nat) : Option String :=
  match json with
  | some j =>
    match heap[j]? with
    | some n =>
      if n.refcount = 0 then none
      else
        match n.value with
        | .string text => some text
        | _ => none
    | none => none
  | none => none

/-- A record whose "Name" entry is an empty Object instead of a String. -/
def nestedNameWorld : World :=
  { heap := [⟨1, .object [("Name", 1), ("City", 2)]⟩, ⟨1, .object []⟩,
      ⟨1, .string "New York"⟩],
    freed := [], faults := [], outcomes := [], stdout := [], stderr := [] }

/-- The call sequence of the table-uniqueness property: `json_root_add_string` on one
root for each `(key, value)` pair in turn; the status codes of the calls and the final
state. -/
def addStrings (w : World) (root : Nat) : List (String × String) → List Int × World
  | [] => ([], w)
  | (key, val) :: rest =>
    ((Example2.json_root_add_string w (some root) (some key) (some val)).1
        :: (addStrings (Example2.json_root_add_string w (some root) (some key) (some val)).2
              root rest).1,
      (addStrings (Example2.json_root_add_string w (some root) (some key) (some val)).2
        root rest).2)

/-- The children of the node at an address; none for an address outside the heap. -/
def childrenAt (heap : List Node) (a : Nat) : List Nat :=
  match heap[a]? with
  | some n => n.value.children
  | none => []

/-- The invariant of a run of `json_root_add_string` calls on the root `r` of a heap that
had `n0` nodes, the nodes `below` under the root and the keys `keys0` in the table of `r`
at the start: the root is live and holds the table `tbl`, whose keys are the initial keys
followed by the new keys `news` of the calls `seen` so far, in the order of their first
insertion; the nodes below the root are old nodes, closed under children, and the root is
not one of them; every child of the root is either below it or a live String node created
by a call; and each key of a call maps to the String node created by its last call,
holding the value of that call. -/
structure Tracked (n0 r rc : Nat) (below : List Nat) (keys0 : List String)
    (seen : List (String × String)) (w : World) (tbl : List (String × Nat))
    (news : List String) : Prop where
  root : w.heap[r]? = some ⟨rc, .object tbl⟩
  live : rc ≠ 0
  r_lt : r < n0
  n0_le : n0 ≤ w.heap.length
  notBelow : r ∉ below
  closed : ∀ i ∈ below, i < n0 ∧ ∀ n, w.heap[i]? = some n → ∀ c ∈ n.value.children, c ∈ below
  order : tbl.map Prod.fst = keys0 ++ news
  newsNodup : news.Nodup
  newsMem : ∀ k, k ∈ news ↔ k ∈ seen.map Prod.fst ∧ k ∉ keys0
  kids : ∀ k c, tbl.lookup k = some c → c < w.heap.length
    ∧ (c ∈ below ∨ (n0 ≤ c ∧ ∃ v, w.heap[c]? = some ⟨1, .string v⟩))
  inj : ∀ k k2 a, tbl.lookup k = some a → tbl.lookup k2 = some a → n0 ≤ a → k = k2
  last : ∀ k v, seen.reverse.lookup k = some v →
    ∃ a, tbl.lookup k = some a ∧ n0 ≤ a ∧ w.heap[a]? = some ⟨1, .string v⟩

/-- A root whose entry "A" is an Object that in turn holds a String. -/
def nestedRootWorld : World :=
  { heap := [⟨1, .object [("A", 1)]⟩, ⟨1, .object [("x", 2)]⟩, ⟨1, .string "old"⟩],
    freed := [], faults := [], outcomes := [], stdout := [], stderr := [] }

/-- The steps a cascade can still add: one for each child of a live node and one for its
storage. -/
def World.pending (w : World) : Nat :=
  (w.heap.map (fun n => if n.refcount = 0 then 0 else n.value.children.length + 1)).sum

/-! Lemmas: the record at program start, the lookups as functions of the heap, the
cascade of `release`, the ordered table, and the invariant of repeated insertion. -/

theorem create_record2_ok (o : List Bool) (h : ∀ b ∈ o, b = true) :
    Example2.json_create_record (World.init o) = (some 0, recordWorld (o.drop 5)) := by
  rcases o with _ | ⟨b1, _ | ⟨b2, _ | ⟨b3, _ | ⟨b4, _ | ⟨b5, t⟩⟩⟩⟩⟩ <;>
    simp only [List.mem_cons, List.mem_singleton, forall_eq_or_imp, forall_eq, List.not_mem_nil,
      IsEmpty.forall_iff, implies_true, and_true] at h
  · rfl
  · subst h; rfl
  · obtain ⟨rfl, rfl⟩ := h; rfl
  · obtain ⟨rfl, rfl, rfl⟩ := h; rfl
  · obtain ⟨rfl, rfl, rfl, rfl⟩ := h; rfl
  · obtain ⟨rfl, rfl, rfl, rfl, rfl, -⟩ := h; rfl

theorem create_record1_ok (o : List Bool) (h : ∀ b ∈ o, b = true) :
    Example1.json_create_record (World.init o) = (some 0, recordWorld (o.drop 5)) := by
  rcases o with _ | ⟨b1, _ | ⟨b2, _ | ⟨b3, _ | ⟨b4, _ | ⟨b5, t⟩⟩⟩⟩⟩ <;>
    simp only [List.mem_cons, List.mem_singleton, forall_eq_or_imp, forall_eq, List.not_mem_nil,
      IsEmpty.forall_iff, implies_true, and_true] at h
  · rfl
  · subst h; rfl
  · obtain ⟨rfl, rfl⟩ := h; rfl
  · obtain ⟨rfl, rfl, rfl⟩ := h; rfl
  · obtain ⟨rfl, rfl, rfl, rfl⟩ := h; rfl
  · obtain ⟨rfl, rfl, rfl, rfl, rfl, -⟩ := h; rfl

theorem dumps_record (rest : List Bool) (h : ∀ b ∈ rest, b = true) :
    json_dumps (recordWorld rest) (some 0) (JSON_INDENT 4)
      = (some recordText, recordWorld (rest.drop 1)) := by
  rcases rest with _ | ⟨b, t⟩
  · rfl
  · obtain rfl : b = true := h b (List.mem_cons_self _ _)
    rfl

theorem all_true_drop (o : List Bool) (k : Nat) (h : ∀ b ∈ o, b = true) :
    ∀ b ∈ o.drop k, b = true :=
  fun b hb => h b (List.mem_of_mem_drop hb)

theorem printf_heap (w : World) (t : String) : (w.printf t).heap = w.heap := rfl

theorem eprintf_heap (w : World) (f : String) (l : Nat) (t : String) :
    (eprintf w f l t).heap = w.heap := rfl

theorem json_object_get_heap (w : World) (json : Option Nat) (key : Option String) :
    (json_object_get w json key).2.heap = w.heap := by
  unfold json_object_get
  repeat' split
  all_goals rfl

theorem json_object_get_fst (w : World) (json : Option Nat) (key : Option String) :
    (json_object_get w json key).1 = lookupChild w.heap json key := by
  rcases key with _ | k <;> rcases json with _ | j <;> simp only [json_object_get, lookupChild]
  cases w.heap[j]? with
  | none => rfl
  | some n =>
    by_cases h : n.refcount = 0
    · simp only [h, if_true]
    · simp only [h, if_false]
      cases n.value <;> rfl

theorem json_string_value_heap (w : World) (json : Option Nat) :
    (json_string_value w json).2.heap = w.heap := by
  unfold json_string_value
  repeat' split
  all_goals rfl

theorem json_string_value_fst (w : World) (json : Option Nat) :
    (json_string_value w json).1 = textOf w.heap json := by
  rcases json with _ | j <;> simp only [json_string_value, textOf]
  cases w.heap[j]? with
  | none => rfl
  | some n =>
    by_cases h : n.refcount = 0
    · simp only [h, if_true]
    · simp only [h, if_false]
      cases n.value <;> rfl

theorem json_object_get_eq (w : World) (json : Option Nat) (key : Option String) :
    json_object_get w json key
      = (lookupChild w.heap json key, (json_object_get w json key).2) := by
  rw [← json_object_get_fst]

theorem json_string_value_eq (w : World) (json : Option Nat) :
    json_string_value w json = (textOf w.heap json, (json_string_value w json).2) := by
  rw [← json_string_value_fst]

theorem textOf_none (heap : List Node) : textOf heap none = none := rfl

theorem find_str_heap (w : World) (root : Option Nat) (key : Option String) :
    (Example2.json_find_str_for_key w root key).2.heap = w.heap := by
  cases root with
  | none => rfl
  | some r =>
    cases key with
    | none => rfl
    | some k =>
      simp only [Example2.json_find_str_for_key]
      rw [json_object_get_eq]
      cases lookupChild w.heap (some r) (some k) with
      | none => simp only [eprintf_heap, json_object_get_heap]
      | some j => simp only [json_string_value_heap, json_object_get_heap]

theorem find_str_fst (w : World) (root : Option Nat) (key : Option String) :
    (Example2.json_find_str_for_key w root key).1
      = textOf w.heap (lookupChild w.heap root key) := by
  cases root with
  | none => cases key <;> rfl
  | some r =>
    cases key with
    | none => rfl
    | some k =>
      simp only [Example2.json_find_str_for_key]
      rw [json_object_get_eq]
      cases lookupChild w.heap (some r) (some k) with
      | none => rfl
      | some j => simp only [json_string_value_fst, json_object_get_heap]

theorem find_str_eq (w : World) (root : Option Nat) (key : Option String) :
    Example2.json_find_str_for_key w root key
      = (textOf w.heap (lookupChild w.heap root key),
          (Example2.json_find_str_for_key w root key).2) := by
  rw [← find_str_fst]

theorem print_record1_status (w : World) (root : Option Nat) :
    (Example1.json_print_record w root).1 =
      if lookupChild w.heap root (some "Name") = none
          ∨ lookupChild w.heap root (some "City") = none then -1 else 0 := by
  cases root with
  | none => rfl
  | some r =>
    simp only [Example1.json_print_record]
    rw [json_object_get_eq]
    cases lookupChild w.heap (some r) (some "Name") with
    | none => simp
    | some j =>
      simp only []
      rw [json_object_get_eq]
      simp only [printf_heap, json_string_value_heap, json_object_get_heap]
      cases lookupChild w.heap (some r) (some "City") with
      | none => simp
      | some j2 => simp

theorem print_record2_status (w : World) (root : Option Nat) :
    (Example2.json_print_record w root).1 =
      if textOf w.heap (lookupChild w.heap root (some "City")) = none
          ∨ textOf w.heap (lookupChild w.heap root (some "Name")) = none then -1 else 0 := by
  cases root with
  | none => rfl
  | some r =>
    simp only [Example2.json_print_record]
    rw [find_str_eq]
    cases textOf w.heap (lookupChild w.heap (some r) (some "City")) with
    | none => simp
    | some city =>
      simp only []
      rw [find_str_eq]
      simp only [find_str_heap]
      cases textOf w.heap (lookupChild w.heap (some r) (some "Name")) with
      | none => simp
      | some name =>
        simp only []
        split <;> simp

theorem lookupChild_object (heap : List Node) (r rc : Nat) (table : List (String × Nat))
    (key : String) (hroot : heap[r]? = some ⟨rc, .object table⟩) (hlive : rc ≠ 0) :
    lookupChild heap (some r) (some key) = table.lookup key := by
  simp only [lookupChild, hroot, hlive, if_false]

theorem textOf_eq_some (heap : List Node) (a : Nat) (text : String) :
    textOf heap (some a) = some text ↔
      ∃ n, heap[a]? = some n ∧ n.refcount ≠ 0 ∧ n.value = .string text := by
  simp only [textOf]
  cases heap[a]? with
  | none => simp
  | some n =>
    by_cases h : n.refcount = 0
    · simp [h]
    · simp only [h, if_false, Option.some.injEq, exists_eq_left', ne_eq, not_false_eq_true,
        true_and]
      cases n.value <;> simp

theorem fault_heap (w : World) (f : Fault) : (w.fault f).heap = w.heap := rfl

theorem set_refcount_lookup (heap : List Node) (a k : Nat) (n : Node)
    (hn : heap[a]? = some n) (i : Nat) (m : Node)
    (hm : (heap.set a { n with refcount := k })[i]? = some m) :
    ∃ m0, heap[i]? = some m0 ∧ m0.value = m.value := by
  rw [List.getElem?_set] at hm
  by_cases hai : a = i
  · subst hai
    rw [if_pos rfl] at hm
    split at hm
    · cases hm; exact ⟨n, hn, rfl⟩
    · cases hm
  · rw [if_neg hai] at hm
    exact ⟨m, hm, rfl⟩

theorem release_protected (P : Nat → Prop) :
    ∀ (fuel : Nat) (tasks : List Task) (w : World),
      (∀ a, Task.dec a ∈ tasks → ¬ P a) →
      (∀ i n, w.heap[i]? = some n → ¬ P i → ∀ c ∈ n.value.children, ¬ P c) →
      ∀ p, P p → (release fuel tasks w).heap[p]? = w.heap[p]? := by
  intro fuel
  induction fuel with
  | zero => intro tasks w _ _ p _; rfl
  | succ fuel ih =>
    intro tasks w htasks hkids p hp
    cases tasks with
    | nil => rfl
    | cons t rest =>
      have hrest : ∀ a, Task.dec a ∈ rest → ¬ P a :=
        fun a ha => htasks a (List.mem_cons_of_mem _ ha)
      cases t with
      | free a =>
        simp only [release]
        exact ih rest { w with freed := w.freed ++ [a] } hrest hkids p hp
      | dec a =>
        have hPa : ¬ P a := htasks a (List.mem_cons_self _ _)
        have hpa : a ≠ p := fun h => hPa (h ▸ hp)
        simp only [release]
        cases hn : w.heap[a]? with
        | none => exact ih rest (w.fault (.wild a)) hrest hkids p hp
        | some n =>
          simp only []
          have hkids' : ∀ k, ∀ i m, (w.heap.set a { n with refcount := k })[i]? = some m →
              ¬ P i → ∀ c ∈ m.value.children, ¬ P c := by
            intro k i m hm hi c hc
            obtain ⟨m0, hm0, hv⟩ := set_refcount_lookup w.heap a k n hn i m hm
            exact hkids i m0 hm0 hi c (hv ▸ hc)
          have hset : ∀ k, (w.heap.set a { n with refcount := k })[p]? = w.heap[p]? := by
            intro k
            rw [List.getElem?_set, if_neg hpa]
          by_cases h0 : n.refcount = 0
          · rw [if_pos h0]
            exact ih rest (w.fault (.released a)) hrest hkids p hp
          · rw [if_neg h0]
            by_cases h1 : n.refcount = 1
            · rw [if_pos h1]
              rw [ih _ _ ?_ (hkids' 0) p hp]
              · exact hset 0
              · intro x hx
                rcases List.mem_append.1 hx with hx | hx
                · obtain ⟨c, hc, hcx⟩ := List.mem_map.1 hx
                  cases hcx
                  exact hkids a n hn hPa x hc
                · rcases List.mem_cons.1 hx with hx | hx
                  · cases hx
                  · exact hrest x hx
            · rw [if_neg h1]
              rw [ih _ _ hrest (hkids' _) p hp]
              exact hset _

theorem release_length : ∀ (fuel : Nat) (tasks : List Task) (w : World),
    (release fuel tasks w).heap.length = w.heap.length := by
  intro fuel
  induction fuel with
  | zero => intro _ _; rfl
  | succ fuel ih =>
    intro tasks w
    cases tasks with
    | nil => rfl
    | cons t rest =>
      cases t with
      | free a => simp only [release]; exact ih _ _
      | dec a =>
        simp only [release]
        cases hn : w.heap[a]? with
        | none => exact ih _ _
        | some n =>
          simp only []
          split
          · exact ih _ _
          · split
            · rw [ih]; simp
            · rw [ih]; simp

theorem release_value : ∀ (fuel : Nat) (tasks : List Task) (w : World) (i : Nat),
    ((release fuel tasks w).heap[i]?).map Node.value = (w.heap[i]?).map Node.value := by
  intro fuel
  induction fuel with
  | zero => intro _ _ _; rfl
  | succ fuel ih =>
    intro tasks w i
    cases tasks with
    | nil => rfl
    | cons t rest =>
      cases t with
      | free a => simp only [release]; exact ih _ _ _
      | dec a =>
        simp only [release]
        cases hn : w.heap[a]? with
        | none => exact ih _ _ _
        | some n =>
          have hset : ∀ k, ((w.heap.set a { n with refcount := k })[i]?).map Node.value
              = (w.heap[i]?).map Node.value := by
            intro k
            rw [List.getElem?_set]
            by_cases hai : a = i
            · subst hai
              rw [if_pos rfl, hn]
              have hlt : a < w.heap.length := by
                by_contra hge
                rw [List.getElem?_eq_none (Nat.le_of_not_lt hge)] at hn
                cases hn
              rw [if_pos hlt]
              rfl
            · rw [if_neg hai]
          simp only []
          split
          · exact ih _ _ _
          · split
            · rw [ih]; exact hset 0
            · rw [ih]; exact hset _

theorem lookup_cons_eq {β : Type} (k k' : String) (c : β) (t : List (String × β)) :
    List.lookup k ((k', c) :: t) = if k' = k then some c else List.lookup k t := by
  rw [List.lookup_cons]
  by_cases h : k' = k
  · subst h; simp
  · have : (k == k') = false := by simpa using fun h' => h h'.symm
    simp [this, h]

theorem tableSet_lookup_self (t : List (String × Nat)) (k : String) (a : Nat) :
    (tableSet t k a).lookup k = some a := by
  induction t with
  | nil => simp [tableSet, lookup_cons_eq]
  | cons e t ih =>
    obtain ⟨k', c⟩ := e
    by_cases h : k' = k
    · simp [tableSet, h, lookup_cons_eq]
    · simp [tableSet, h, lookup_cons_eq, ih]

theorem tableSet_lookup_ne (t : List (String × Nat)) (k k' : String) (a : Nat) (hk : k' ≠ k) :
    (tableSet t k a).lookup k' = t.lookup k' := by
  induction t with
  | nil => simp [tableSet, lookup_cons_eq, hk.symm]
  | cons e t ih =>
    obtain ⟨k0, c⟩ := e
    by_cases h : k0 = k
    · subst h
      simp [tableSet, lookup_cons_eq, hk.symm]
    · simp [tableSet, h, lookup_cons_eq, ih]

theorem tableSet_keys (t : List (String × Nat)) (k : String) (a : Nat) :
    (tableSet t k a).map Prod.fst
      = if k ∈ t.map Prod.fst then t.map Prod.fst else t.map Prod.fst ++ [k] := by
  induction t with
  | nil => simp [tableSet]
  | cons e t ih =>
    obtain ⟨k0, c⟩ := e
    by_cases h : k0 = k
    · subst h; simp [tableSet]
    · have hne : ¬ k = k0 := fun h' => h h'.symm
      simp only [tableSet, h, if_false, List.map_cons, ih, List.mem_cons, hne, false_or]
      split <;> simp

theorem tableSet_nodup (t : List (String × Nat)) (k : String) (a : Nat)
    (h : (t.map Prod.fst).Nodup) : ((tableSet t k a).map Prod.fst).Nodup := by
  rw [tableSet_keys]
  split
  · exact h
  · next hk =>
    rw [List.nodup_append]
    refine ⟨h, List.nodup_singleton k, ?_⟩
    intro x hx hx'
    rw [List.mem_singleton] at hx'
    exact hk (hx' ▸ hx)

theorem tableSet_mem_keys (t : List (String × Nat)) (k k' : String) (a : Nat) :
    k' ∈ (tableSet t k a).map Prod.fst ↔ k' ∈ t.map Prod.fst ∨ k' = k := by
  rw [tableSet_keys]
  split
  · next hk =>
    constructor
    · exact Or.inl
    · rintro (h | h)
      · exact h
      · exact h ▸ hk
  · simp

theorem tableSet_mem_children (t : List (String × Nat)) (k : String) (a c : Nat)
    (h : c ∈ (tableSet t k a).map Prod.snd) : c ∈ t.map Prod.snd ∨ c = a := by
  induction t with
  | nil => simpa [tableSet] using h
  | cons e t ih =>
    obtain ⟨k0, c0⟩ := e
    by_cases hk : k0 = k
    · simp only [tableSet, hk, if_true, List.map_cons, List.mem_cons] at h ⊢
      rcases h with h | h
      · exact Or.inr h
      · exact Or.inl (Or.inr h)
    · simp only [tableSet, hk, if_false, List.map_cons, List.mem_cons] at h ⊢
      rcases h with h | h
      · exact Or.inl (Or.inl h)
      · rcases ih h with h | h
        · exact Or.inl (Or.inr h)
        · exact Or.inr h

theorem lookup_mem_children (t : List (String × Nat)) (k : String) (a : Nat)
    (h : t.lookup k = some a) : a ∈ t.map Prod.snd := by
  induction t with
  | nil => simp at h
  | cons e t ih =>
    obtain ⟨k0, c0⟩ := e
    rw [lookup_cons_eq] at h
    by_cases hk : k0 = k
    · rw [if_pos hk] at h
      cases h
      simp
    · rw [if_neg hk] at h
      simp [ih h]

theorem lookup_none_iff {β : Type} (t : List (String × β)) (k : String) :
    t.lookup k = none ↔ k ∉ t.map Prod.fst := by
  induction t with
  | nil => simp
  | cons e t ih =>
    obtain ⟨k0, c0⟩ := e
    rw [lookup_cons_eq]
    by_cases hk : k0 = k
    · simp [hk]
    · have : ¬ k = k0 := fun h => hk h.symm
      simp [hk, ih, this]

theorem getElem?_append_new (heap : List Node) (x : Node) (i : Nat) (n : Node)
    (h : (heap ++ [x])[i]? = some n) : heap[i]? = some n ∨ (i = heap.length ∧ n = x) := by
  by_cases hi : i < heap.length
  · rw [List.getElem?_append_left hi] at h
    exact Or.inl h
  · right
    have hle : heap.length ≤ i := Nat.le_of_not_lt hi
    rw [List.getElem?_append_right hle] at h
    by_cases h0 : i - heap.length = 0
    · rw [h0] at h
      simp only [List.getElem?_cons_zero, Option.some.injEq] at h
      exact ⟨by omega, h.symm⟩
    · obtain ⟨m, hm⟩ := Nat.exists_eq_succ_of_ne_zero h0
      rw [hm] at h
      simp at h

theorem draw_heap (w : World) : w.draw.2.heap = w.heap := by
  unfold World.draw
  split <;> rfl

theorem store_heap (w : World) (a : Nat) (n : Node) (table : List (String × Nat))
    (hn : w.heap[a]? = some n) (h0 : n.refcount ≠ 0) :
    (w.store a table).heap = w.heap.set a { n with value := .object table } := by
  simp only [World.store, hn, h0, if_false]

theorem json_object_set_new_object (w : World) (j v : Nat) (k : String) (n : Node)
    (table : List (String × Nat)) (hjv : j ≠ v) (hn : w.heap[j]? = some n)
    (h0 : n.refcount ≠ 0) (hv : n.value = .object table) :
    json_object_set_new w (some j) (some k) (some v) =
      match w.draw with
      | (false, w1) => (-1, json_decref w1 (some v))
      | (true, w1) =>
        match table.lookup k with
        | some old => (0, (json_decref w1 (some old)).store j (tableSet table k v))
        | none => (0, w1.store j (tableSet table k v)) := by
  simp only [json_object_set_new, hjv, hn, h0, if_false, hv]

theorem tracked_step (n0 r rc : Nat) (below : List Nat) (keys0 : List String)
    (seen : List (String × String)) (w : World) (tbl : List (String × Nat))
    (news : List String) (T : Tracked n0 r rc below keys0 seen w tbl news)
    (k v : String) (w2 : World)
    (hlen : w2.heap.length = w.heap.length + 1)
    (hroot : w2.heap[r]? = some ⟨rc, .object (tableSet tbl k w.heap.length)⟩)
    (hval : ∀ i, i ≠ r →
      (w2.heap[i]?).map Node.value = ((w.heap ++ [⟨1, .string v⟩])[i]?).map Node.value)
    (hkeep : ∀ p, n0 ≤ p → tbl.lookup k ≠ some p →
      w2.heap[p]? = (w.heap ++ [⟨1, .string v⟩])[p]?) :
    Tracked n0 r rc below keys0 (seen ++ [(k, v)]) w2 (tableSet tbl k w.heap.length)
      (if k ∈ tbl.map Prod.fst then news else news ++ [k]) := by
  have hfresh : ∀ key, tbl.lookup key ≠ some w.heap.length := by
    intro key h
    exact absurd (T.kids key _ h).1 (Nat.lt_irrefl _)
  have hnew : w2.heap[w.heap.length]? = some ⟨1, .string v⟩ := by
    rw [hkeep _ T.n0_le (hfresh k)]
    simp
  have hkeys : ∀ x, x ∈ tbl.map Prod.fst ↔ x ∈ keys0 ∨ x ∈ news := by
    intro x
    rw [T.order, List.mem_append]
  refine
    { root := hroot, live := T.live, r_lt := T.r_lt, n0_le := ?_, notBelow := T.notBelow,
      closed := ?_, order := ?_, newsNodup := ?_, newsMem := ?_, kids := ?_, inj := ?_,
      last := ?_ }
  · have := T.n0_le; omega
  · intro i hi
    have hi0 := (T.closed i hi).1
    refine ⟨hi0, ?_⟩
    intro n hn c hc
    have hir : i ≠ r := fun h => T.notBelow (h ▸ hi)
    have h1 := hval i hir
    have hlt : i < w.heap.length := lt_of_lt_of_le hi0 T.n0_le
    rw [hn, List.getElem?_append_left hlt] at h1
    cases hm : w.heap[i]? with
    | none => rw [hm] at h1; cases h1
    | some m =>
      rw [hm] at h1
      simp only [Option.map_some', Option.some.injEq] at h1
      exact (T.closed i hi).2 m hm c (h1 ▸ hc)
  · rw [tableSet_keys, T.order]
    split
    · rfl
    · rw [List.append_assoc]
  · split
    · exact T.newsNodup
    · next hk =>
      rw [List.nodup_append]
      refine ⟨T.newsNodup, List.nodup_singleton k, ?_⟩
      intro x hx hx2
      rw [List.mem_singleton] at hx2
      exact hk ((hkeys x).2 (Or.inr hx) |> fun h => hx2 ▸ h)
  · intro x
    simp only [List.map_append, List.map_cons, List.map_nil, List.mem_append,
      List.mem_singleton]
    split
    · next hk =>
      rw [T.newsMem x]
      constructor
      · rintro ⟨h1, h2⟩
        exact ⟨Or.inl h1, h2⟩
      · rintro ⟨h1 | h1, h2⟩
        · exact ⟨h1, h2⟩
        · subst h1
          rcases (hkeys x).1 hk with h | h
          · exact absurd h h2
          · exact (T.newsMem x).1 h
    · next hk =>
      rw [List.mem_append, List.mem_singleton, T.newsMem x]
      constructor
      · rintro (⟨h1, h2⟩ | h1)
        · exact ⟨Or.inl h1, h2⟩
        · subst h1
          exact ⟨Or.inr rfl, fun h => hk ((hkeys x).2 (Or.inl h))⟩
      · rintro ⟨h1 | h1, h2⟩
        · exact Or.inl ⟨h1, h2⟩
        · exact Or.inr h1
  · intro k1 c h1
    by_cases e1 : k1 = k
    · rw [e1, tableSet_lookup_self] at h1
      cases h1
      exact ⟨by omega, Or.inr ⟨T.n0_le, v, hnew⟩⟩
    · rw [tableSet_lookup_ne tbl k k1 _ e1] at h1
      obtain ⟨hc, hcase⟩ := T.kids k1 c h1
      refine ⟨by omega, ?_⟩
      rcases hcase with hb | ⟨hn0, v1, hv1⟩
      · exact Or.inl hb
      · refine Or.inr ⟨hn0, v1, ?_⟩
        rw [hkeep c hn0 (fun h => e1 (T.inj k k1 c h h1 hn0).symm),
          List.getElem?_append_left hc]
        exact hv1
  · intro k1 k2 a h1 h2 ha
    by_cases e1 : k1 = k
    · by_cases e2 : k2 = k
      · rw [e1, e2]
      · rw [e1, tableSet_lookup_self] at h1
        rw [tableSet_lookup_ne tbl k k2 _ e2] at h2
        cases h1
        exact absurd h2 (hfresh k2)
    · by_cases e2 : k2 = k
      · rw [e2, tableSet_lookup_self] at h2
        rw [tableSet_lookup_ne tbl k k1 _ e1] at h1
        cases h2
        exact absurd h1 (hfresh k1)
      · rw [tableSet_lookup_ne tbl k k1 _ e1] at h1
        rw [tableSet_lookup_ne tbl k k2 _ e2] at h2
        exact T.inj k1 k2 a h1 h2 ha
  · intro k1 v1 h1
    rw [List.reverse_append, List.reverse_singleton, List.singleton_append,
      lookup_cons_eq] at h1
    by_cases e1 : k = k1
    · rw [if_pos e1] at h1
      cases h1
      subst e1
      exact ⟨w.heap.length, tableSet_lookup_self tbl k _, T.n0_le, hnew⟩
    · rw [if_neg e1] at h1
      obtain ⟨a, ha, hn0, hnode⟩ := T.last k1 v1 h1
      refine ⟨a, ?_, hn0, ?_⟩
      · rw [tableSet_lookup_ne tbl k k1 _ (fun h => e1 h.symm)]
        exact ha
      · rw [hkeep a hn0 (fun h => e1 (T.inj k k1 a h ha hn0))]
        have hlt : a < w.heap.length := (T.kids k1 a ha).1
        rw [List.getElem?_append_left hlt]
        exact hnode

theorem tracked_after_store (n0 r rc : Nat) (below : List Nat) (keys0 : List String)
    (seen : List (String × String)) (w : World) (tbl : List (String × Nat))
    (news : List String) (T : Tracked n0 r rc below keys0 seen w tbl news)
    (k v : String) (w3 : World)
    (hlen : w3.heap.length = w.heap.length + 1)
    (hroot : w3.heap[r]? = some ⟨rc, .object tbl⟩)
    (hval : ∀ i : Nat,
      (w3.heap[i]?).map Node.value = ((w.heap ++ [⟨1, .string v⟩])[i]?).map Node.value)
    (hkeep : ∀ p, n0 ≤ p → tbl.lookup k ≠ some p →
      w3.heap[p]? = (w.heap ++ [⟨1, .string v⟩])[p]?) :
    Tracked n0 r rc below keys0 (seen ++ [(k, v)])
      (w3.store r (tableSet tbl k w.heap.length)) (tableSet tbl k w.heap.length)
      (if k ∈ tbl.map Prod.fst then news else news ++ [k]) := by
  have hrlt : r < w3.heap.length := by
    have h1 := T.r_lt
    have h2 := T.n0_le
    omega
  have hheap := store_heap w3 r ⟨rc, .object tbl⟩ (tableSet tbl k w.heap.length) hroot T.live
  have hother : ∀ i, i ≠ r → (w3.store r (tableSet tbl k w.heap.length)).heap[i]?
      = w3.heap[i]? := by
    intro i hi
    rw [hheap, List.getElem?_set, if_neg (fun h => hi h.symm)]
  apply tracked_step n0 r rc below keys0 seen w tbl news T k v
  · rw [hheap, List.length_set, hlen]
  · rw [hheap, List.getElem?_set, if_pos rfl, if_pos hrlt]
  · intro i hi
    rw [hother i hi]
    exact hval i
  · intro p hp hl
    have hpr : p ≠ r := by
      have := T.r_lt
      omega
    rw [hother p hpr]
    exact hkeep p hp hl

theorem lookup_last {β : Type} (pre post : List (String × β)) (key : String) (val : β)
    (hpost : key ∉ post.map Prod.fst) :
    (pre ++ (key, val) :: post).reverse.lookup key = some val := by
  rw [List.reverse_append, List.reverse_cons, List.append_assoc, List.singleton_append]
  have hnone : post.reverse.lookup key = none := by
    rw [lookup_none_iff]
    simpa using hpost
  generalize post.reverse = q at hnone
  induction q with
  | nil => simp [lookup_cons_eq]
  | cons e q ih =>
    obtain ⟨k0, c0⟩ := e
    rw [lookup_cons_eq] at hnone
    by_cases hk : k0 = key
    · rw [if_pos hk] at hnone; cases hnone
    · rw [if_neg hk] at hnone
      rw [List.cons_append, lookup_cons_eq, if_neg hk]
      exact ih hnone

theorem sum_map_set (f : Node → Nat) : ∀ (l : List Node) (a : Nat) (n x : Node),
    l[a]? = some n → ((l.set a x).map f).sum + f n = (l.map f).sum + f x := by
  intro l
  induction l with
  | nil => intro a n x h; simp at h
  | cons y l ih =>
    intro a n x h
    cases a with
    | zero =>
      simp only [List.getElem?_cons_zero, Option.some.injEq] at h
      subst h
      simp only [List.set_cons_zero, List.map_cons, List.sum_cons]
      omega
    | succ a =>
      simp only [List.getElem?_cons_succ] at h
      have := ih a n x h
      simp only [List.set_cons_succ, List.map_cons, List.sum_cons]
      omega

theorem release_fuel : ∀ (fuel : Nat) (tasks : List Task) (w : World),
    tasks.length + w.pending ≤ fuel →
    ∀ extra, release (fuel + extra) tasks w = release fuel tasks w := by
  intro fuel
  induction fuel with
  | zero =>
    intro tasks w h extra
    have ht : tasks = [] := List.eq_nil_of_length_eq_zero (by omega)
    subst ht
    cases extra <;> rfl
  | succ fuel ih =>
    intro tasks w h extra
    rw [Nat.add_right_comm]
    cases tasks with
    | nil => rfl
    | cons t rest =>
      simp only [List.length_cons] at h
      cases t with
      | free a =>
        simp only [release]
        exact ih rest { w with freed := w.freed ++ [a] } (by
          show rest.length + w.pending ≤ fuel
          omega) extra
      | dec a =>
        simp only [release]
        cases hn : w.heap[a]? with
        | none =>
          exact ih rest (w.fault (.wild a)) (by
            show rest.length + w.pending ≤ fuel
            omega) extra
        | some n =>
          simp only []
          by_cases h0 : n.refcount = 0
          · rw [if_pos h0, if_pos h0]
            exact ih rest (w.fault (.released a)) (by
              show rest.length + w.pending ≤ fuel
              omega) extra
          · rw [if_neg h0, if_neg h0]
            by_cases h1 : n.refcount = 1
            · rw [if_pos h1, if_pos h1]
              apply ih
              have hs := sum_map_set
                (fun n => if n.refcount = 0 then 0 else n.value.children.length + 1)
                w.heap a n { n with refcount := 0 } hn
              simp only [h0, if_false, if_true] at hs
              simp only [World.pending, List.length_append, List.length_map,
                List.length_cons] at h ⊢
              omega
            · rw [if_neg h1, if_neg h1]
              apply ih
              have hs := sum_map_set
                (fun n => if n.refcount = 0 then 0 else n.value.children.length + 1)
                w.heap a n { n with refcount := n.refcount - 1 } hn
              have h2 : n.refcount - 1 ≠ 0 := by omega
              simp only [h0, h2, if_false] at hs
              simp only [World.pending] at h ⊢
              omega

theorem pending_lt_budget (w : World) : w.pending < w.budget := by
  have : ∀ l : List Node,
      (l.map (fun n => if n.refcount = 0 then 0 else n.value.children.length + 1)).sum
        ≤ (l.map (fun n => n.value.children.length + 1)).sum := by
    intro l
    induction l with
    | nil => simp
    | cons y l ih =>
      simp only [List.map_cons, List.sum_cons]
      split <;> omega
  have := this w.heap
  simp only [World.pending, World.budget]
  omega

/-- The step bound of `json_decref` is never reached: any larger bound gives the same
state. -/
theorem json_decref_fuel (w : World) (a extra : Nat) :
    release (w.budget + extra) [Task.dec a] w = json_decref w (some a) := by
  have := pending_lt_budget w
  exact release_fuel w.budget [Task.dec a] w (by simp only [List.length_singleton]; omega) extra

theorem add_string_tracked (n0 r rc : Nat) (below : List Nat) (keys0 : List String)
    (seen : List (String × String)) (w : World) (tbl : List (String × Nat))
    (news : List String) (T : Tracked n0 r rc below keys0 seen w tbl news) (k v : String)
    (hok : (Example2.json_root_add_string w (some r) (some k) (some v)).1 = 0) :
    Tracked n0 r rc below keys0 (seen ++ [(k, v)])
      (Example2.json_root_add_string w (some r) (some k) (some v)).2
      (tableSet tbl k w.heap.length) (if k ∈ tbl.map Prod.fst then news else news ++ [k]) := by
  have hrlt : r < w.heap.length := lt_of_lt_of_le T.r_lt T.n0_le
  have hd1 := draw_heap w
  simp only [Example2.json_root_add_string, json_string] at hok ⊢
  rcases hdraw : w.draw with ⟨b1, w1⟩
  rw [hdraw] at hd1 hok
  simp only at hd1
  cases b1 with
  | false => simp at hok
  | true =>
    simp only [] at hok ⊢
    have hroot1 : ({ w1 with heap := w1.heap ++ [⟨1, .string v⟩] } : World).heap[r]?
        = some ⟨rc, .object tbl⟩ := by
      show (w1.heap ++ [⟨1, .string v⟩])[r]? = _
      rw [hd1, List.getElem?_append_left hrlt]
      exact T.root
    have hne : r ≠ w1.heap.length := by rw [hd1]; omega
    rw [json_object_set_new_object _ r w1.heap.length k ⟨rc, .object tbl⟩ tbl hne hroot1
      T.live rfl] at hok ⊢
    have hd2 := draw_heap ({ w1 with heap := w1.heap ++ [⟨1, .string v⟩] } : World)
    rcases hdraw2 : ({ w1 with heap := w1.heap ++ [⟨1, .string v⟩] } : World).draw
      with ⟨b2, w3⟩
    rw [hdraw2] at hd2 hok
    have hh3 : w3.heap = w.heap ++ [⟨1, .string v⟩] := by
      rw [← hd1]; exact hd2
    cases b2 with
    | false => simp at hok
    | true =>
      simp only [hd1] at hok ⊢
      cases hl : tbl.lookup k with
      | none =>
        simp only [ne_eq, not_true_eq_false, if_false]
        apply tracked_after_store n0 r rc below keys0 seen w tbl news T k v w3
        · rw [hh3]; simp
        · rw [hh3, List.getElem?_append_left hrlt]; exact T.root
        · intro i; rw [hh3]
        · intro p _ _; rw [hh3]
      | some old =>
        simp only [ne_eq, not_true_eq_false, if_false]
        obtain ⟨holdlt, hold⟩ := T.kids k old hl
        have hrold : r ≠ old := by
          rcases hold with hb | ⟨hn0, -⟩
          · exact fun h => T.notBelow (h ▸ hb)
          · have := T.r_lt
            omega
        have hprot := release_protected (fun p => p ∉ below ∧ p ≠ old)
          w3.budget [Task.dec old] w3
          (by
            intro a ha
            rw [List.mem_singleton] at ha
            cases ha
            exact fun h => h.2 rfl)
          (by
            intro i n hn hi c hc hPc
            rw [hh3] at hn
            by_cases hib : i ∈ below
            · have hi0 := (T.closed i hib).1
              have hlt : i < w.heap.length := lt_of_lt_of_le hi0 T.n0_le
              rw [List.getElem?_append_left hlt] at hn
              exact hPc.1 ((T.closed i hib).2 n hn c hc)
            · have hio : i = old := by
                by_contra hne2
                exact hi ⟨hib, hne2⟩
              subst hio
              rcases hold with hb | ⟨-, v1, hv1⟩
              · exact hib hb
              · rw [List.getElem?_append_left holdlt, hv1] at hn
                cases hn
                cases hc)
        apply tracked_after_store n0 r rc below keys0 seen w tbl news T k v
        · show (release w3.budget [Task.dec old] w3).heap.length = _
          rw [release_length, hh3]; simp
        · show (release w3.budget [Task.dec old] w3).heap[r]? = _
          rw [hprot r ⟨T.notBelow, hrold⟩, hh3, List.getElem?_append_left hrlt]
          exact T.root
        · intro i
          show ((release w3.budget [Task.dec old] w3).heap[i]?).map Node.value = _
          rw [release_value, hh3]
        · intro p hp hne2
          show (release w3.budget [Task.dec old] w3).heap[p]? = _
          have hpb : p ∉ below := by
            intro hb
            have := (T.closed p hb).1
            omega
          rw [hprot p ⟨hpb, fun h => hne2 (h ▸ hl)⟩, hh3]

theorem addStrings_tracked (n0 r rc : Nat) (below : List Nat) (keys0 : List String) :
    ∀ (calls : List (String × String)) (seen : List (String × String)) (w : World)
      (tbl : List (String × Nat)) (news : List String),
      Tracked n0 r rc below keys0 seen w tbl news →
      (∀ code ∈ (addStrings w r calls).1, code = 0) →
      ∃ tbl2 news2,
        Tracked n0 r rc below keys0 (seen ++ calls) (addStrings w r calls).2 tbl2 news2 := by
  intro calls
  induction calls with
  | nil =>
    intro seen w tbl news T _
    exact ⟨tbl, news, by simpa [addStrings] using T⟩
  | cons e rest ih =>
    obtain ⟨k, v⟩ := e
    intro seen w tbl news T hok
    simp only [addStrings, List.mem_cons, forall_eq_or_imp] at hok ⊢
    obtain ⟨tbl2, news2, T2⟩ := ih (seen ++ [(k, v)]) _ _ _
      (add_string_tracked n0 r rc below keys0 seen w tbl news T k v hok.1) hok.2
    refine ⟨tbl2, news2, ?_⟩
    rw [List.append_assoc, List.singleton_append] at T2
    exact T2

theorem tracked_start (w : World) (r rc : Nat) (table : List (String × Nat))
    (below : List Nat)
    (hroot : w.heap[r]? = some ⟨rc, .object table⟩) (hlive : rc ≠ 0)
    (hkids : ∀ c ∈ table.map Prod.snd, c ∈ below)
    (hclosed : ∀ i ∈ below, i < w.heap.length ∧ ∀ c ∈ childrenAt w.heap i, c ∈ below)
    (hacyclic : r ∉ below) :
    Tracked w.heap.length r rc below (table.map Prod.fst) [] w table [] := by
  refine
    { root := hroot, live := hlive, r_lt := ?_, n0_le := le_refl _, notBelow := hacyclic,
      closed := ?_, order := by simp, newsNodup := List.nodup_nil, newsMem := by simp,
      kids := ?_, inj := ?_, last := ?_ }
  · by_contra h
    rw [List.getElem?_eq_none (Nat.le_of_not_lt h)] at hroot
    cases hroot
  · intro i hi
    refine ⟨(hclosed i hi).1, ?_⟩
    intro n hn c hc
    apply (hclosed i hi).2 c
    simp only [childrenAt, hn]
    exact hc
  · intro k c h
    have hb := hkids c (lookup_mem_children table k c h)
    exact ⟨(hclosed c hb).1, Or.inl hb⟩
  · intro k k2 a h1 _ ha
    have := (hclosed a (hkids a (lookup_mem_children table k a h1))).1
    omega
  · intro k v h
    simp at h

end Jansson

open Jansson

/-! The properties of the two programs. -/

/-- C1: when every library call succeeds, `json_create_record` of example 2 returns an
Object node whose table holds exactly the two entries `("Name", String "John Doe")` and
`("City", String "New York")`, in that insertion order; on that record
`json_find_str_for_key` returns "John Doe" for "Name", "New York" for "City" and `NULL` for
"Other". -/
theorem create_record_name_then_city (o : List Bool) (h : ∀ b ∈ o, b = true) :
    (Example2.json_create_record (World.init o)).1 = some 0
    ∧ (Example2.json_create_record (World.init o)).2.heap
        = [⟨1, .object [("Name", 1), ("City", 2)]⟩, ⟨1, .string "John Doe"⟩,
            ⟨1, .string "New York"⟩]
    ∧ (Example2.json_find_str_for_key (Example2.json_create_record (World.init o)).2
        (some 0) (some "Name")).1 = some "John Doe"
    ∧ (Example2.json_find_str_for_key (Example2.json_create_record (World.init o)).2
        (some 0) (some "City")).1 = some "New York"
    ∧ (Example2.json_find_str_for_key (Example2.json_create_record (World.init o)).2
        (some 0) (some "Other")).1 = none := by
  rw [create_record2_ok o h]
  exact ⟨rfl, rfl, rfl, rfl, rfl⟩

theorem create_record_name_then_city_witness :
    (∀ b ∈ [true, true, true, true, true], b = true)
    ∧ (Example2.json_create_record (World.init [true, true, true, true, true])).1 = some 0 :=
  ⟨by decide, (create_record_name_then_city [true, true, true, true, true] (by decide)).1⟩

/-- C2: for the record built by `json_create_record`, the text `json_print_json` obtains
from `json_dumps` with indent width 4 is exactly the four lines `{`,
`    "Name": "John Doe",`, `    "City": "New York"` and `}`, and that text, followed by a
line end, is what it prints after its headline; this holds in both programs. -/
theorem print_json_four_lines (o : List Bool) (h : ∀ b ∈ o, b = true) :
    (json_dumps (Example2.json_create_record (World.init o)).2 (some 0) (JSON_INDENT 4)).1
      = some "\x7b\n    \"Name\": \"John Doe\",\n    \"City\": \"New York\"\n\x7d"
    ∧ (Example2.json_print_json (Example2.json_create_record (World.init o)).2 (some 0)).1 = 0
    ∧ (Example2.json_print_json (Example2.json_create_record (World.init o)).2 (some 0)).2.stdout
      = ["-------- JSON structure --------\n",
          "\x7b\n    \"Name\": \"John Doe\",\n    \"City\": \"New York\"\n\x7d\n"]
    ∧ (Example1.json_print_json (Example1.json_create_record (World.init o)).2 (some 0)).stdout
      = ["-------- JSON structure --------\n",
          "\x7b\n    \"Name\": \"John Doe\",\n    \"City\": \"New York\"\n\x7d\n"] := by
  have hd := dumps_record (o.drop 5) (all_true_drop o 5 h)
  rw [create_record2_ok o h, create_record1_ok o h]
  refine ⟨?_, ?_, ?_, ?_⟩
  · rw [hd]; rfl
  · simp only [Example2.json_print_json, hd]
  · simp only [Example2.json_print_json, hd]; rfl
  · simp only [Example1.json_print_json, hd]; rfl

theorem print_json_four_lines_witness :
    (∀ b ∈ ([] : List Bool), b = true)
    ∧ (Example2.json_print_json (Example2.json_create_record (World.init [])).2 (some 0)).1
      = 0 :=
  ⟨by decide, (print_json_four_lines [] (by decide)).2.1⟩

/-- C5: for the record returned by a successful `json_create_record`, whose root and two
String children each have count 1, `json_remove_record` returns 0, takes the count of the
root from 1 to 0 and frees both children and the root, each exactly once (children first),
leaving no live node and recording no fault; this holds in both programs. -/
theorem remove_record_cascades (o : List Bool) (h : ∀ b ∈ o, b = true) :
    ((Example2.json_create_record (World.init o)).1 = some 0
      ∧ (Example2.json_create_record (World.init o)).2.heap.map Node.refcount = [1, 1, 1]
      ∧ (Example2.json_remove_record (Example2.json_create_record (World.init o)).2
          (some 0)).1 = 0
      ∧ (Example2.json_remove_record (Example2.json_create_record (World.init o)).2
          (some 0)).2.heap.map Node.refcount = [0, 0, 0]
      ∧ (Example2.json_remove_record (Example2.json_create_record (World.init o)).2
          (some 0)).2.freed = [1, 2, 0]
      ∧ (Example2.json_remove_record (Example2.json_create_record (World.init o)).2
          (some 0)).2.faults = [])
    ∧ ((Example1.json_create_record (World.init o)).1 = some 0
      ∧ (Example1.json_create_record (World.init o)).2.heap.map Node.refcount = [1, 1, 1]
      ∧ (Example1.json_remove_record (Example1.json_create_record (World.init o)).2
          (some 0)).1 = 0
      ∧ (Example1.json_remove_record (Example1.json_create_record (World.init o)).2
          (some 0)).2.heap.map Node.refcount = [0, 0, 0]
      ∧ (Example1.json_remove_record (Example1.json_create_record (World.init o)).2
          (some 0)).2.freed = [1, 2, 0]
      ∧ (Example1.json_remove_record (Example1.json_create_record (World.init o)).2
          (some 0)).2.faults = []) := by
  rw [create_record2_ok o h, create_record1_ok o h]
  exact ⟨⟨rfl, rfl, rfl, rfl, rfl, rfl⟩, ⟨rfl, rfl, rfl, rfl, rfl, rfl⟩⟩

theorem remove_record_cascades_witness :
    (∀ b ∈ [true], b = true)
    ∧ (Example2.json_remove_record (Example2.json_create_record (World.init [true])).2
        (some 0)).2.freed = [1, 2, 0] :=
  ⟨by decide, (remove_record_cascades [true] (by decide)).1.2.2.2.2.1⟩

/-- C3: for every live Object root and every key, `json_find_str_for_key` returns a
non-NULL text exactly when the key is present in the table of the root and its child is a
String, and the text returned is then the text of that child; for a key that is not in the
table it returns `NULL`; the lookup leaves the heap, that is every table and every
reference count, as it was. -/
theorem find_str_iff_string_child (w : World) (r rc : Nat) (table : List (String × Nat))
    (key : String) (hroot : w.heap[r]? = some ⟨rc, .object table⟩) (hlive : rc ≠ 0) :
    (∀ text, (Example2.json_find_str_for_key w (some r) (some key)).1 = some text ↔
        ∃ a n, table.lookup key = some a ∧ w.heap[a]? = some n ∧ n.refcount ≠ 0
          ∧ n.value = .string text)
    ∧ (table.lookup key = none →
        (Example2.json_find_str_for_key w (some r) (some key)).1 = none)
    ∧ (Example2.json_find_str_for_key w (some r) (some key)).2.heap = w.heap := by
  rw [find_str_fst, lookupChild_object w.heap r rc table key hroot hlive]
  refine ⟨fun text => ?_, fun h => ?_, find_str_heap w _ _⟩
  · cases hl : table.lookup key with
    | none => simp [textOf_none]
    | some a => simp [textOf_eq_some]
  · rw [h]; rfl

theorem find_str_iff_string_child_witness :
    (recordWorld []).heap[0]? = some ⟨1, .object [("Name", 1), ("City", 2)]⟩ ∧ 1 ≠ 0
    ∧ (Example2.json_find_str_for_key (recordWorld []) (some 0) (some "City")).2.heap
        = (recordWorld []).heap :=
  ⟨by decide, by decide,
    (find_str_iff_string_child (recordWorld []) 0 1 [("Name", 1), ("City", 2)] "City"
      (by decide) (by decide)).2.2⟩

/-- C4, as the code behaves: on the record whose "Name" entry is an Object, the result of
`json_find_str_for_key` for the missing key "Missing" and its result for the wrongly typed
key "Name" are the same `NULL`. -/
theorem find_str_absent_same_as_wrong_type :
    nestedNameWorld.heap[0]? = some ⟨1, .object [("Name", 1), ("City", 2)]⟩
    ∧ nestedNameWorld.heap[1]? = some ⟨1, .object []⟩
    ∧ List.lookup "Missing" [("Name", 1), ("City", 2)] = none
    ∧ (Example2.json_find_str_for_key nestedNameWorld (some 0) (some "Missing")).1
        = (Example2.json_find_str_for_key nestedNameWorld (some 0) (some "Name")).1 := by
  decide

/-- C4, amended: for every live Object root, `json_find_str_for_key` returns `NULL` both
for a key that is missing from the table and for a key whose child is not a String, so the
two are not told apart; a successful string result is not `NULL` and so differs from
both. -/
theorem find_str_null_absent_or_wrong_type (w : World) (r rc : Nat)
    (table : List (String × Nat)) (missing wrong : String) (a : Nat) (n : Node)
    (hroot : w.heap[r]? = some ⟨rc, .object table⟩) (hlive : rc ≠ 0)
    (hmissing : table.lookup missing = none)
    (hwrong : table.lookup wrong = some a) (hnode : w.heap[a]? = some n)
    (hvariant : ∀ text, n.value ≠ .string text) :
    (Example2.json_find_str_for_key w (some r) (some missing)).1 = none
    ∧ (Example2.json_find_str_for_key w (some r) (some wrong)).1 = none
    ∧ ∀ present text,
        (Example2.json_find_str_for_key w (some r) (some present)).1 = some text →
        (Example2.json_find_str_for_key w (some r) (some present)).1
            ≠ (Example2.json_find_str_for_key w (some r) (some missing)).1
          ∧ (Example2.json_find_str_for_key w (some r) (some present)).1
            ≠ (Example2.json_find_str_for_key w (some r) (some wrong)).1 := by
  have h1 : (Example2.json_find_str_for_key w (some r) (some missing)).1 = none := by
    rw [find_str_fst, lookupChild_object w.heap r rc table missing hroot hlive, hmissing]
    rfl
  have h2 : (Example2.json_find_str_for_key w (some r) (some wrong)).1 = none := by
    rw [find_str_fst, lookupChild_object w.heap r rc table wrong hroot hlive, hwrong]
    cases ht : textOf w.heap (some a) with
    | none => rfl
    | some text =>
      obtain ⟨m, hm, -, hv⟩ := (textOf_eq_some w.heap a text).1 ht
      rw [hnode] at hm
      cases hm
      exact absurd hv (hvariant text)
  refine ⟨h1, h2, fun present text hp => ?_⟩
  rw [h1, h2, hp]
  exact ⟨Option.some_ne_none text, Option.some_ne_none text⟩

theorem find_str_null_absent_or_wrong_type_witness :
    (Example2.json_find_str_for_key nestedNameWorld (some 0) (some "Missing")).1 = none
    ∧ (Example2.json_find_str_for_key nestedNameWorld (some 0) (some "Name")).1 = none :=
  ⟨(find_str_null_absent_or_wrong_type nestedNameWorld 0 1 [("Name", 1), ("City", 2)]
      "Missing" "Name" 1 ⟨1, .object []⟩ (by decide) (by decide) (by decide) (by decide)
      (by decide) (by intro text h; cases h)).1,
   (find_str_null_absent_or_wrong_type nestedNameWorld 0 1 [("Name", 1), ("City", 2)]
      "Missing" "Name" 1 ⟨1, .object []⟩ (by decide) (by decide) (by decide) (by decide)
      (by decide) (by intro text h; cases h)).2.1⟩

/-- C7, as the code behaves: on the record whose "Name" entry is an Object,
`json_print_record` of example 1 returns 0 and `json_print_record` of example 2
returns -1. -/
theorem print_record_status_differs :
    nestedNameWorld.heap[0]? = some ⟨1, .object [("Name", 1), ("City", 2)]⟩
    ∧ nestedNameWorld.heap[1]? = some ⟨1, .object []⟩
    ∧ (Example1.json_print_record nestedNameWorld (some 0)).1 = 0
    ∧ (Example2.json_print_record nestedNameWorld (some 0)).1 = -1 := by
  decide

/-- C7, amended: for every root (`NULL`, or any node) whose children under "Name" and
"City", where the root is a live Object that has them, are live Strings, `json_print_record`
of example 1 and `json_print_record` of example 2 return the same status code. -/
theorem print_record_same_status (w : World) (root : Option Nat)
    (hstrings : ∀ r n table, root = some r → w.heap[r]? = some n → n.refcount ≠ 0 →
      n.value = .object table → ∀ key, key = "Name" ∨ key = "City" → ∀ a,
        table.lookup key = some a →
          ∃ c text, w.heap[a]? = some c ∧ c.refcount ≠ 0 ∧ c.value = .string text) :
    (Example1.json_print_record w root).1 = (Example2.json_print_record w root).1 := by
  have key : ∀ k, k = "Name" ∨ k = "City" →
      (textOf w.heap (lookupChild w.heap root (some k)) = none
        ↔ lookupChild w.heap root (some k) = none) := by
    intro k hk
    constructor
    · intro ht
      cases hl : lookupChild w.heap root (some k) with
      | none => rfl
      | some a =>
        exfalso
        rcases root with _ | r
        · simp [lookupChild] at hl
        · have hl0 := hl
          simp only [lookupChild] at hl
          cases hn : w.heap[r]? with
          | none => simp [hn] at hl
          | some n =>
            rw [hn] at hl
            by_cases h0 : n.refcount = 0
            · simp [h0] at hl
            · simp only [h0, if_false] at hl
              cases hv : n.value with
              | object table =>
                rw [hv] at hl
                simp only at hl
                obtain ⟨c, text, hc, hc0, hcv⟩ := hstrings r n table rfl hn h0 hv k hk a hl
                rw [hl0] at ht
                have := (textOf_eq_some w.heap a text).2 ⟨c, hc, hc0, hcv⟩
                rw [this] at ht
                cases ht
              | _ => rw [hv] at hl; cases hl
    · intro hl
      rw [hl]; rfl
  have hN := key "Name" (Or.inl rfl)
  have hC := key "City" (Or.inr rfl)
  rw [print_record1_status, print_record2_status]
  simp only [hN, hC, or_comm]

theorem print_record_same_status_witness :
    (Example1.json_print_record (recordWorld []) (some 0)).1
      = (Example2.json_print_record (recordWorld []) (some 0)).1 :=
  print_record_same_status (recordWorld []) (some 0) (by
    intro r n table hr hn _ hv key hk a ha
    cases hr
    have hn0 : n = ⟨1, .object [("Name", 1), ("City", 2)]⟩ := by
      have : (recordWorld []).heap[0]? = some ⟨1, .object [("Name", 1), ("City", 2)]⟩ := rfl
      rw [this] at hn
      exact (Option.some.inj hn).symm
    subst hn0
    cases hv
    rcases hk with rfl | rfl
    · have : a = 1 := by
        have h1 : List.lookup "Name" [("Name", 1), ("City", 2)] = some 1 := by decide
        rw [h1] at ha
        exact (Option.some.inj ha).symm
      subst this
      exact ⟨⟨1, .string "John Doe"⟩, "John Doe", rfl, by decide, rfl⟩
    · have : a = 2 := by
        have h1 : List.lookup "City" [("Name", 1), ("City", 2)] = some 2 := by decide
        rw [h1] at ha
        exact (Option.some.inj ha).symm
      subst this
      exact ⟨⟨1, .string "New York"⟩, "New York", rfl, by decide, rfl⟩)

/-- C8, at the failing input: when `json_object` and `json_string` succeed and
`json_object_set_new` fails for "Name", `json_create_record` of example 2 returns `NULL`
after releasing the String node at address 1 a second time: the library has already taken
its count to 0, and `json_root_add_string` releases it again. -/
theorem create_record2_releases_twice :
    (Example2.json_create_record (World.init [true, true, false])).1 = none
    ∧ (Example2.json_create_record (World.init [true, true, false])).2.faults
        = [Fault.released 1]
    ∧ (Example2.json_create_record (World.init [true, true, false])).2.freed = [1, 0] := by
  decide

/-- C9, at the failing input: when `json_object` and `json_string` succeed and
`json_object_set_new` fails for "Name", `json_create_record` of example 1 releases the
root to count 0, then hands the destroyed root to `json_object_set_new` for "City",
releases it once more and returns it: a non-NULL root whose count is 0. -/
theorem create_record1_returns_dead_root :
    (Example1.json_create_record (World.init [true, true, false])).1 = some 0
    ∧ (Example1.json_create_record (World.init [true, true, false])).2.heap[0]?
        = some ⟨0, .object []⟩
    ∧ (Example1.json_create_record (World.init [true, true, false])).2.faults
        = [Fault.used 0, Fault.released 0] := by
  decide

/-- C10, at the failing input: when only the second `json_string` fails,
`json_create_record` of example 1 returns `NULL` while the root and its "Name" child are
still live with count 1 and nothing has been freed. -/
theorem create_record1_leaks_root :
    (Example1.json_create_record (World.init [true, true, true, false])).1 = none
    ∧ (Example1.json_create_record (World.init [true, true, true, false])).2.heap
        = [⟨1, .object [("Name", 1)]⟩, ⟨1, .string "John Doe"⟩]
    ∧ (Example1.json_create_record (World.init [true, true, true, false])).2.freed = [] := by
  decide

/-- C6, as the code behaves: on a root whose table already holds the key "A", the single
successful call `json_root_add_string(root, "B", "2")` leaves two entries in the table of
the root, while the calls have one distinct key. -/
theorem add_string_count_includes_old_keys :
    nestedRootWorld.heap[0]? = some ⟨1, .object [("A", 1)]⟩
    ∧ (addStrings nestedRootWorld 0 [("B", "2")]).1 = [0]
    ∧ (addStrings nestedRootWorld 0 [("B", "2")]).2.heap[0]?
        = some ⟨1, .object [("A", 1), ("B", 3)]⟩
    ∧ ([("A", 1), ("B", 3)] : List (String × Nat)).length = 2
    ∧ (List.map Prod.fst [("B", "2")]).toFinset.card = 1 := by
  decide

/-- C6, amended: for every live Object root that is not reachable from its own children
(`below` lists the nodes under the root: it holds the children of the root, is closed under
children, lies inside the heap and does not hold the root) and every finite sequence of
`json_root_add_string` calls on it that all return 0, with keys possibly repeated,
`json_find_str_for_key` returns for each key the value of the last call made with that key,
and the number of entries of the table of the root is the number it held before the calls
plus the number of distinct keys of the calls that were not already in it; for a root whose
table starts empty the keys of the table are unique and the number of entries is the number
of distinct keys of the calls. -/
theorem add_string_last_value_wins (w : World) (r rc : Nat) (table : List (String × Nat))
    (below : List Nat) (calls : List (String × String))
    (hroot : w.heap[r]? = some ⟨rc, .object table⟩) (hlive : rc ≠ 0)
    (hkids : ∀ c ∈ table.map Prod.snd, c ∈ below)
    (hclosed : ∀ i ∈ below, i < w.heap.length ∧ ∀ c ∈ childrenAt w.heap i, c ∈ below)
    (hacyclic : r ∉ below)
    (hok : ∀ code ∈ (addStrings w r calls).1, code = 0) :
    (∀ pre key val post, calls = pre ++ (key, val) :: post → key ∉ post.map Prod.fst →
        (Example2.json_find_str_for_key (addStrings w r calls).2 (some r) (some key)).1
          = some val)
    ∧ ∃ table2, (addStrings w r calls).2.heap[r]? = some ⟨rc, .object table2⟩
        ∧ table2.length = table.length
            + ((calls.map Prod.fst).toFinset \ (table.map Prod.fst).toFinset).card
        ∧ (table = [] → (table2.map Prod.fst).Nodup
            ∧ table2.length = (calls.map Prod.fst).toFinset.card) := by
  obtain ⟨tbl2, news, T⟩ := addStrings_tracked w.heap.length r rc below (table.map Prod.fst)
    calls [] w table [] (tracked_start w r rc table below hroot hlive hkids hclosed hacyclic) hok
  rw [List.nil_append] at T
  have hcount : tbl2.length = table.length
      + ((calls.map Prod.fst).toFinset \ (table.map Prod.fst).toFinset).card := by
    have h1 : tbl2.length = table.length + news.length := by
      have := congrArg List.length T.order
      simpa using this
    have h2 : news.length
        = ((calls.map Prod.fst).toFinset \ (table.map Prod.fst).toFinset).card := by
      rw [← List.toFinset_card_of_nodup T.newsNodup]
      congr 1
      ext x
      rw [List.mem_toFinset, Finset.mem_sdiff, List.mem_toFinset, List.mem_toFinset]
      exact T.newsMem x
    rw [h1, h2]
  refine ⟨?_, tbl2, T.root, hcount, ?_⟩
  · intro pre key val post hcalls hpost
    have hl : calls.reverse.lookup key = some val := by
      rw [hcalls]; exact lookup_last pre post key val hpost
    obtain ⟨a, ha, -, hnode⟩ := T.last key val hl
    rw [find_str_fst, lookupChild_object _ r rc tbl2 key T.root T.live, ha]
    exact (textOf_eq_some _ a val).2 ⟨_, hnode, Nat.one_ne_zero, rfl⟩
  · intro ht
    subst ht
    refine ⟨?_, ?_⟩
    · rw [T.order]
      simpa using T.newsNodup
    · rw [hcount]
      simp

theorem add_string_last_value_wins_witness :
    (∀ code ∈ (addStrings nestedRootWorld 0
        [("A", "1"), ("B", "2"), ("A", "3")]).1, code = 0)
    ∧ (Example2.json_find_str_for_key (addStrings nestedRootWorld 0
        [("A", "1"), ("B", "2"), ("A", "3")]).2 (some 0) (some "A")).1 = some "3"
    ∧ (Example2.json_find_str_for_key (addStrings nestedRootWorld 0
        [("A", "1"), ("B", "2"), ("A", "3")]).2 (some 0) (some "B")).1 = some "2" :=
  ⟨by decide,
    (add_string_last_value_wins nestedRootWorld 0 1 [("A", 1)] [1, 2]
      [("A", "1"), ("B", "2"), ("A", "3")] (by decide) (by decide) (by decide) (by decide)
      (by decide) (by decide)).1 [("A", "1"), ("B", "2")] "A" "3" [] rfl (by decide),
    (add_string_last_value_wins nestedRootWorld 0 1 [("A", 1)] [1, 2]
      [("A", "1"), ("B", "2"), ("A", "3")] (by decide) (by decide) (by decide) (by decide)
      (by decide) (by decide)).1 [("A", "1")] "B" "2" [("A", "3")] rfl (by decide)⟩
